import Mathlib

/-!
Verification of the numerical integration, steady-state detection and
parameter-fitting core of the modelbase2 repository.

The Python source is shallowly embedded: state vectors are lists of
rationals, machine floats become exact rationals, the external ODE
solvers (scipy.integrate.odeint, scipy.integrate.ode, assimulo CVode)
and scipy.optimize.minimize are abstract oracle parameters, and the
mutation of backend / model state is explicit state passing.

The L2-norm comparison of the source, norm2 diff < tolerance, is
embedded as sumSq diff < tolerance * tolerance, which is equivalent for
positive tolerance (lemma sumSq_lt_sq_iff_sqrt_lt below bridges to the
real square root).
-/

/-- Sum of squares of a vector; sumSq v equals the square of the
Euclidean norm that numpy.linalg.norm(diff, ord=2) computes. -/
def sumSq (v : List ℚ) : ℚ :=
  (v.map (fun x => x * x)).sum

/-- Each summand of sumSq is nonnegative. -/
lemma sumSq_nonneg (v : List ℚ) : 0 ≤ sumSq v := by
  induction v with
  | nil => simp [sumSq]
  | cons a t ih =>
    simp only [sumSq, List.map_cons, List.sum_cons]
    have ha : 0 ≤ a * a := mul_self_nonneg a
    have := ih
    simp only [sumSq] at this
    linarith

/-- Bridge to the source formulation: for positive tolerance, the
Euclidean norm (real square root of the sum of squares) is below
tolerance exactly when the sum of squares is below tolerance squared. -/
lemma sumSq_lt_sq_iff_sqrt_lt (v : List ℚ) (tol : ℚ) (htol : 0 < tol) :
    Real.sqrt ((sumSq v : ℚ) : ℝ) < (tol : ℝ) ↔ sumSq v < tol * tol := by
  have h : (0 : ℝ) < (tol : ℝ) := by exact_mod_cast htol
  rw [Real.sqrt_lt' h]
  rw [sq]
  exact_mod_cast Iff.rfl

/-!
## Explicit backend: class Scipy (integrators/int_scipy.py)

Fields of the dataclass. The field name y0_orig embeds the Python
attribute _y0_orig (leading underscore dropped).
-/

/-- State of the Scipy integrator dataclass: rhs, y0, atol, rtol, t0
and the construction-time copy _y0_orig of y0. -/
structure Scipy where
  rhs : ℚ → List ℚ → List ℚ
  y0 : List ℚ
  atol : ℚ
  rtol : ℚ
  t0 : ℚ
  y0_orig : List ℚ

/-- Constructor plus __post_init__: t0 defaults to 0 and _y0_orig is set
to a copy of the supplied y0. -/
def Scipy.init (rhs : ℚ → List ℚ → List ℚ) (y0 : List ℚ) (atol rtol : ℚ) : Scipy :=
  ⟨rhs, y0, atol, rtol, 0, y0⟩

/-- Scipy.reset: t0 becomes 0 and y0 becomes a copy of _y0_orig. -/
def Scipy.reset (s : Scipy) : Scipy :=
  ⟨s.rhs, s.y0_orig, s.atol, s.rtol, 0, s.y0_orig⟩

/-- Oracle abstracting scipy.integrate.odeint: from rhs, initial state,
time points and the two tolerances it produces one state row per
requested time point. -/
def Odeint : Type :=
  (ℚ → List ℚ → List ℚ) → List ℚ → List ℚ → ℚ → ℚ → List (List ℚ)

/-- Scipy.integrate_time_course: runs odeint from the current state over
the given time points, stores the last time point into t0 and the last
state row into y0, and returns the pair (time_points, trajectory). -/
def Scipy.integrate_time_course (odeint : Odeint) (s : Scipy) (time_points : List ℚ) :
    (List ℚ × List (List ℚ)) × Scipy :=
  let y := odeint s.rhs s.y0 time_points s.atol s.rtol
  ((time_points, y), ⟨s.rhs, y.getLastD [], s.atol, s.rtol, time_points.getLastD 0, s.y0_orig⟩)

/-- numpy.linspace with n evenly spaced points from a to b inclusive. -/
def linspace (a b : ℚ) (n : ℕ) : List ℚ :=
  (List.range n).map (fun i : ℕ => a + (b - a) * (i : ℚ) / ((n : ℚ) - 1))

/-- Scipy.integrate: steps defaults to 100 total return points, an
explicit steps argument means steps + 1 return points; delegates to
integrate_time_course on linspace(t0, t_end, steps). -/
def Scipy.integrate (odeint : Odeint) (s : Scipy) (t_end : ℚ) (steps : Option ℕ) :
    (List ℚ × List (List ℚ)) × Scipy :=
  let n : ℕ := match steps with
    | none => 100
    | some k => k + 1
  Scipy.integrate_time_course odeint s (linspace s.t0 t_end n)

/-- Elementwise convergence difference of the Scipy steady-state loop:
diff = (y2 - y1) / y1 when rel_norm else y2 - y1 (the source divides by
y1, the previous state). -/
def convDiff (rel_norm : Bool) (y2 y1 : List ℚ) : List ℚ :=
  if rel_norm then List.zipWith (fun a b => (a - b) / b) y2 y1
  else List.zipWith (fun a b => a - b) y2 y1

/-- The for-loop body of Scipy.integrate_to_steady_state: fuel counts
the remaining range(max_steps) iterations, y1 the previous state, t the
next probe time; solve is the spi.ode solution oracle already
initialised at the post-reset y0. -/
def scipySSLoop (solve : ℚ → List ℚ) (tolerance : ℚ) (rel_norm : Bool) (step_size : ℚ) :
    List ℚ → ℚ → ℕ → Option ℚ × Option (List ℚ)
  | _, _, 0 => (none, none)
  | y1, t, n + 1 =>
    let y2 := solve t
    if sumSq (convDiff rel_norm y2 y1) < tolerance * tolerance then (some t, some y2)
    else scipySSLoop solve tolerance rel_norm step_size y2 (t + step_size) n

/-- Oracle abstracting the spi.ode("lsoda") solution: given the initial
value passed to set_initial_value and a requested time, it returns the
solver state at that time. -/
def OdeSolve : Type :=
  List ℚ → ℚ → List ℚ

/-- Scipy.integrate_to_steady_state: resets the integrator, initialises
an lsoda solver at the post-reset y0, then probes at t0 + step_size,
t0 + 2 step_size, ... for at most max_steps iterations; the method never
writes into (t0, y0) after the reset, so the post-reset state is
returned unchanged. -/
def Scipy.integrate_to_steady_state (solve : OdeSolve) (s : Scipy)
    (tolerance : ℚ) (rel_norm : Bool) (step_size : ℚ) (max_steps : ℕ) :
    (Option ℚ × Option (List ℚ)) × Scipy :=
  let s1 := Scipy.reset s
  (scipySSLoop (solve s1.y0) tolerance rel_norm step_size s1.y0 (s1.t0 + step_size) max_steps, s1)

/-- State the loop compares against at probe k: the starting state y1
for the first probe, afterwards the solver state of the previous probe
(t is the time of the first probe). -/
def prevAt (solve : ℚ → List ℚ) (step t : ℚ) (y1 : List ℚ) : ℕ → List ℚ
  | 0 => y1
  | k + 1 => solve (t + (k : ℚ) * step)

/-- Probe k converges: the squared norm of the convergence difference
between the solver state at time t + k * step and the previous state is
below tolerance squared. -/
def convAt (solve : ℚ → List ℚ) (tolerance : ℚ) (rel_norm : Bool) (step t : ℚ) (y1 : List ℚ) (k : ℕ) :
    Prop :=
  sumSq (convDiff rel_norm (solve (t + (k : ℚ) * step)) (prevAt solve step t y1 k))
    < tolerance * tolerance

instance (solve : ℚ → List ℚ) (tolerance : ℚ) (rel_norm : Bool) (step t : ℚ) (y1 : List ℚ) (k : ℕ) :
    Decidable (convAt solve tolerance rel_norm step t y1 k) := by
  unfold convAt
  infer_instance

lemma prevAt_shift (solve : ℚ → List ℚ) (step t : ℚ) (y1 : List ℚ) (k : ℕ) :
    prevAt solve step (t + step) (solve t) k = prevAt solve step t y1 (k + 1) := by
  cases k with
  | zero => simp [prevAt]
  | succ j =>
    show solve (t + step + (j : ℚ) * step) = solve (t + ((j + 1 : ℕ) : ℚ) * step)
    push_cast
    exact congrArg solve (by ring)

lemma convAt_shift (solve : ℚ → List ℚ) (tolerance : ℚ) (rel_norm : Bool)
    (step t : ℚ) (y1 : List ℚ) (k : ℕ) :
    convAt solve tolerance rel_norm step (t + step) (solve t) k
      ↔ convAt solve tolerance rel_norm step t y1 (k + 1) := by
  unfold convAt
  rw [prevAt_shift solve step t y1 k]
  have harg : t + step + (k : ℚ) * step = t + ((k : ℚ) + 1) * step := by ring
  rw [harg]
  push_cast
  exact Iff.rfl

/-- If no probe among the first n converges, the loop exhausts its fuel
and yields (none, none). -/
lemma scipySSLoop_none_of_never (solve : ℚ → List ℚ) (tolerance : ℚ) (rel_norm : Bool)
    (step : ℚ) :
    ∀ (n : ℕ) (y1 : List ℚ) (t : ℚ),
      (∀ j < n, ¬ convAt solve tolerance rel_norm step t y1 j) →
      scipySSLoop solve tolerance rel_norm step y1 t n = (none, none) := by
  intro n
  induction n with
  | zero => intro y1 t _; rfl
  | succ m ih =>
    intro y1 t h
    have h0 : ¬ convAt solve tolerance rel_norm step t y1 0 := h 0 (Nat.succ_pos m)
    have hc : ¬ sumSq (convDiff rel_norm (solve t) y1) < tolerance * tolerance := by
      unfold convAt at h0
      simpa [prevAt] using h0
    show (if sumSq (convDiff rel_norm (solve t) y1) < tolerance * tolerance
        then (some t, some (solve t))
        else scipySSLoop solve tolerance rel_norm step (solve t) (t + step) m) = (none, none)
    rw [if_neg hc]
    apply ih
    intro j hj
    rw [convAt_shift solve tolerance rel_norm step t y1 j]
    exact h (j + 1) (Nat.succ_lt_succ hj)

/-- If probe k is the first converging probe and fuel remains, the loop
returns the probe time t + k * step and the solver state there. -/
lemma scipySSLoop_eq_of_first (solve : ℚ → List ℚ) (tolerance : ℚ) (rel_norm : Bool)
    (step : ℚ) :
    ∀ (k n : ℕ) (y1 : List ℚ) (t : ℚ), k < n →
      (∀ j < k, ¬ convAt solve tolerance rel_norm step t y1 j) →
      convAt solve tolerance rel_norm step t y1 k →
      scipySSLoop solve tolerance rel_norm step y1 t n
        = (some (t + (k : ℚ) * step), some (solve (t + (k : ℚ) * step))) := by
  intro k
  induction k with
  | zero =>
    intro n y1 t hn _ hk
    obtain ⟨m, rfl⟩ := Nat.exists_eq_succ_of_ne_zero (by omega : n ≠ 0)
    have hc : sumSq (convDiff rel_norm (solve t) y1) < tolerance * tolerance := by
      unfold convAt at hk
      simpa [prevAt] using hk
    show (if sumSq (convDiff rel_norm (solve t) y1) < tolerance * tolerance
        then (some t, some (solve t))
        else scipySSLoop solve tolerance rel_norm step (solve t) (t + step) m)
        = (some (t + (0 : ℚ) * step), some (solve (t + (0 : ℚ) * step)))
    rw [if_pos hc]
    norm_num
  | succ j ih =>
    intro n y1 t hn hprev hk
    obtain ⟨m, rfl⟩ := Nat.exists_eq_succ_of_ne_zero (by omega : n ≠ 0)
    push_cast
    have h0 : ¬ convAt solve tolerance rel_norm step t y1 0 := hprev 0 (Nat.succ_pos j)
    have hc : ¬ sumSq (convDiff rel_norm (solve t) y1) < tolerance * tolerance := by
      unfold convAt at h0
      simpa [prevAt] using h0
    show (if sumSq (convDiff rel_norm (solve t) y1) < tolerance * tolerance
        then (some t, some (solve t))
        else scipySSLoop solve tolerance rel_norm step (solve t) (t + step) m)
        = (some (t + ((j : ℚ) + 1) * step), some (solve (t + ((j : ℚ) + 1) * step)))
    rw [if_neg hc]
    have hm : j < m := Nat.lt_of_succ_lt_succ hn
    have hprev2 : ∀ i < j, ¬ convAt solve tolerance rel_norm step (t + step) (solve t) i := by
      intro i hi
      rw [convAt_shift solve tolerance rel_norm step t y1 i]
      exact hprev (i + 1) (Nat.succ_lt_succ hi)
    have hk2 : convAt solve tolerance rel_norm step (t + step) (solve t) j := by
      rw [convAt_shift solve tolerance rel_norm step t y1 j]
      exact hk
    have := ih m (solve t) (t + step) hm hprev2 hk2
    rw [this]
    have harg : t + step + (j : ℚ) * step = t + ((j : ℚ) + 1) * step := by ring
    rw [harg]

/-!
## Refinement variants written from the claimed specification text
-/

/-- Modelled from the claimed specification, for comparison with the
source: relative difference dividing by the new state, (y2 - y1) / y2. -/
def convDiffByNew (rel_norm : Bool) (y2 y1 : List ℚ) : List ℚ :=
  if rel_norm then List.zipWith (fun a b => (a - b) / a) y2 y1
  else List.zipWith (fun a b => a - b) y2 y1

/-- Modelled from the claimed specification: the Scipy steady-state loop
with the relative difference divided by the new state y2. -/
def scipySSLoopByNew (solve : ℚ → List ℚ) (tolerance : ℚ) (rel_norm : Bool) (step_size : ℚ) :
    List ℚ → ℚ → ℕ → Option ℚ × Option (List ℚ)
  | _, _, 0 => (none, none)
  | y1, t, n + 1 =>
    let y2 := solve t
    if sumSq (convDiffByNew rel_norm y2 y1) < tolerance * tolerance then (some t, some y2)
    else scipySSLoopByNew solve tolerance rel_norm step_size y2 (t + step_size) n

/-- Modelled from the claimed specification: Scipy steady-state search
that divides the relative difference by the new state. -/
def Scipy.integrate_to_steady_state_byNew (solve : OdeSolve) (s : Scipy)
    (tolerance : ℚ) (rel_norm : Bool) (step_size : ℚ) (max_steps : ℕ) :
    (Option ℚ × Option (List ℚ)) × Scipy :=
  let s1 := Scipy.reset s
  (scipySSLoopByNew (solve s1.y0) tolerance rel_norm step_size s1.y0 (s1.t0 + step_size)
    max_steps, s1)

/-- Modelled from the claimed specification sentence "starting from the
current state": the Scipy steady-state search without the entry reset,
probing from the live (t0, y0). -/
def Scipy.integrate_to_steady_state_fromCurrent (solve : OdeSolve) (s : Scipy)
    (tolerance : ℚ) (rel_norm : Bool) (step_size : ℚ) (max_steps : ℕ) :
    (Option ℚ × Option (List ℚ)) × Scipy :=
  (scipySSLoop (solve s.y0) tolerance rel_norm step_size s.y0 (s.t0 + step_size) max_steps, s)

/-!
## Implicit backend: class Assimulo (integrators/int_assimulo.py)
-/

/-- The solver-specific error raised by the CVode solver
(assimulo.solvers.sundials.CVodeError); the payload is irrelevant. -/
structure CVodeError where
  code : ℤ

/-- State of the Assimulo integrator dataclass together with the
position of the wrapped CVode solver (field cur): __post_init__ creates
CVode(Explicit_Problem(rhs, y0)), whose current state starts at y0. -/
structure Assimulo where
  rhs : ℚ → List ℚ → List ℚ
  y0 : List ℚ
  atol : ℚ
  rtol : ℚ
  maxnef : ℕ
  maxncf : ℕ
  verbosity : ℕ
  cur : List ℚ

/-- Constructor plus __post_init__: the CVode solver starts at y0. -/
def Assimulo.init (rhs : ℚ → List ℚ → List ℚ) (y0 : List ℚ) (atol rtol : ℚ)
    (maxnef maxncf verbosity : ℕ) : Assimulo :=
  ⟨rhs, y0, atol, rtol, maxnef, maxncf, verbosity, y0⟩

/-- Assimulo.reset delegates to CVode reset, which returns the solver to
the initial conditions of the problem. -/
def Assimulo.reset (s : Assimulo) : Assimulo :=
  ⟨s.rhs, s.y0, s.atol, s.rtol, s.maxnef, s.maxncf, s.verbosity, s.y0⟩

/-- Oracle abstracting CVode.simulate: from the solver state at the
start of the call, the final time, the step count and optional explicit
time points, it either returns the output times and states or raises
CVodeError. -/
def CVodeSim : Type :=
  List ℚ → ℝ → ℕ → Option (List ℝ) → Except CVodeError (List ℝ × List (List ℚ))

/-- Assimulo.integrate: steps defaults to 0, the CVodeError raised by
simulate is caught and turned into (None, None); on success the solver
has advanced to the last returned state. -/
def Assimulo.integrate (sim : CVodeSim) (s : Assimulo) (t_end : ℝ) (steps : Option ℕ)
    (time_points : Option (List ℝ)) :
    (Option (List ℝ) × Option (List (List ℚ))) × Assimulo :=
  match sim s.cur t_end (steps.getD 0) time_points with
  | Except.ok (t, y) =>
    ((some t, some y),
      ⟨s.rhs, s.y0, s.atol, s.rtol, s.maxnef, s.maxncf, s.verbosity, y.getLastD s.cur⟩)
  | Except.error _ => ((none, none), s)

/-- Difference tested by the Assimulo steady-state loop: between the
last two rows of the horizon trajectory, (y[-1] - y[-2]) / y[-1] when
rel_norm (dividing by the newest row) else y[-1] - y[-2]. -/
def assimDiff (rel_norm : Bool) (y : List (List ℚ)) : List ℚ :=
  let yl := y.getLastD []
  let yp := y.dropLast.getLastD []
  if rel_norm then List.zipWith (fun a b => (a - b) / a) yl yp
  else List.zipWith (fun a b => a - b) yl yp

/-- The for-loop of Assimulo.integrate_to_steady_state over the horizon
schedule; a CVodeError anywhere aborts the whole loop with (none, none),
mirroring the try block around the for statement. -/
def ssLoop (sim : ℝ → Except CVodeError (List ℝ × List (List ℚ)))
    (tolerance : ℚ) (rel_norm : Bool) : List ℝ → Option ℝ × Option (List ℚ)
  | [] => (none, none)
  | t_end :: rest =>
    match sim t_end with
    | Except.error _ => (none, none)
    | Except.ok (t, y) =>
      if sumSq (assimDiff rel_norm y) < tolerance * tolerance
      then (some (t.getLastD 0), some (y.getLastD []))
      else ssLoop sim tolerance rel_norm rest

/-- numpy.geomspace(a, b, 3): the three-point geometric progression from
a to b, whose middle point is the geometric mean. -/
noncomputable def geomspace3 (a b : ℝ) : List ℝ :=
  [a, Real.sqrt (a * b), b]

/-- Assimulo.integrate_to_steady_state: resets the solver, then probes
the horizons geomspace(1000, t_max, 3), each via simulate(t_end) (step
count 0, no explicit time points) from the post-reset solver state. -/
noncomputable def Assimulo.integrate_to_steady_state (sim : CVodeSim) (s : Assimulo)
    (tolerance : ℚ) (rel_norm : Bool) (t_max : ℝ) : Option ℝ × Option (List ℚ) :=
  let s1 := Assimulo.reset s
  ssLoop (fun t_end => sim s1.cur t_end 0 none) tolerance rel_norm (geomspace3 1000 t_max)

/-- A horizon result converged: simulate succeeded and the squared norm
of the tested difference is below tolerance squared. -/
def horizonConverged (tolerance : ℚ) (rel_norm : Bool)
    (r : Except CVodeError (List ℝ × List (List ℚ))) : Prop :=
  ∃ t y, r = Except.ok (t, y) ∧ sumSq (assimDiff rel_norm y) < tolerance * tolerance

/-- A horizon result that succeeded but did not converge. -/
def horizonOkNoConv (tolerance : ℚ) (rel_norm : Bool)
    (r : Except CVodeError (List ℝ × List (List ℚ))) : Prop :=
  ∃ t y, r = Except.ok (t, y) ∧ ¬ sumSq (assimDiff rel_norm y) < tolerance * tolerance

/-- If no horizon of the schedule converges (whether it fails or merely
does not settle), the loop returns (none, none). -/
lemma ssLoop_none_of_never (sim : ℝ → Except CVodeError (List ℝ × List (List ℚ)))
    (tolerance : ℚ) (rel_norm : Bool) :
    ∀ ts : List ℝ, (∀ u ∈ ts, ¬ horizonConverged tolerance rel_norm (sim u)) →
      ssLoop sim tolerance rel_norm ts = (none, none) := by
  intro ts
  induction ts with
  | nil => intro _; rfl
  | cons a rest ih =>
    intro h
    show (match sim a with
      | Except.error _ => (none, none)
      | Except.ok (t, y) =>
        if sumSq (assimDiff rel_norm y) < tolerance * tolerance
        then (some (t.getLastD 0), some (y.getLastD []))
        else ssLoop sim tolerance rel_norm rest) = (none, none)
    rcases hsim : sim a with e | ⟨t, y⟩
    · rfl
    · have hnc : ¬ sumSq (assimDiff rel_norm y) < tolerance * tolerance := by
        intro hcv
        exact h a (List.mem_cons_self a rest) ⟨t, y, hsim, hcv⟩
      simp only [hnc, if_false]
      exact ih (fun u hu => h u (List.mem_cons_of_mem a hu))

/-- The loop returns the last time and state row of the first converging
horizon, provided every earlier horizon succeeded without converging. -/
lemma ssLoop_first_conv (sim : ℝ → Except CVodeError (List ℝ × List (List ℚ)))
    (tolerance : ℚ) (rel_norm : Bool) :
    ∀ (ts1 : List ℝ) (t_end : ℝ) (ts2 : List ℝ) (t : List ℝ) (y : List (List ℚ)),
      (∀ u ∈ ts1, horizonOkNoConv tolerance rel_norm (sim u)) →
      sim t_end = Except.ok (t, y) →
      sumSq (assimDiff rel_norm y) < tolerance * tolerance →
      ssLoop sim tolerance rel_norm (ts1 ++ t_end :: ts2)
        = (some (t.getLastD 0), some (y.getLastD [])) := by
  intro ts1
  induction ts1 with
  | nil =>
    intro t_end ts2 t y _ hsim hcv
    show (match sim t_end with
      | Except.error _ => (none, none)
      | Except.ok (t, y) =>
        if sumSq (assimDiff rel_norm y) < tolerance * tolerance
        then (some (t.getLastD 0), some (y.getLastD []))
        else ssLoop sim tolerance rel_norm ts2) = (some (t.getLastD 0), some (y.getLastD []))
    rw [hsim]
    simp only [hcv, if_true]
  | cons a rest ih =>
    intro t_end ts2 t y h hsim hcv
    obtain ⟨ta, ya, hsa, hnca⟩ := h a (List.mem_cons_self a rest)
    show (match sim a with
      | Except.error _ => (none, none)
      | Except.ok (t, y) =>
        if sumSq (assimDiff rel_norm y) < tolerance * tolerance
        then (some (t.getLastD 0), some (y.getLastD []))
        else ssLoop sim tolerance rel_norm (rest ++ t_end :: ts2))
      = (some (t.getLastD 0), some (y.getLastD []))
    rw [hsa]
    simp only [hnca, if_false]
    exact ih t_end ts2 t y (fun u hu => h u (List.mem_cons_of_mem a hu)) hsim hcv

/-- A CVodeError at the first not-yet-converged horizon aborts the loop
with (none, none). -/
lemma ssLoop_error_aborts (sim : ℝ → Except CVodeError (List ℝ × List (List ℚ)))
    (tolerance : ℚ) (rel_norm : Bool) :
    ∀ (ts1 : List ℝ) (t_end : ℝ) (ts2 : List ℝ) (e : CVodeError),
      (∀ u ∈ ts1, horizonOkNoConv tolerance rel_norm (sim u)) →
      sim t_end = Except.error e →
      ssLoop sim tolerance rel_norm (ts1 ++ t_end :: ts2) = (none, none) := by
  intro ts1
  induction ts1 with
  | nil =>
    intro t_end ts2 e _ hsim
    show (match sim t_end with
      | Except.error _ => (none, none)
      | Except.ok (t, y) =>
        if sumSq (assimDiff rel_norm y) < tolerance * tolerance
        then (some (t.getLastD 0), some (y.getLastD []))
        else ssLoop sim tolerance rel_norm ts2) = (none, none)
    rw [hsim]
  | cons a rest ih =>
    intro t_end ts2 e h hsim
    obtain ⟨ta, ya, hsa, hnca⟩ := h a (List.mem_cons_self a rest)
    show (match sim a with
      | Except.error _ => (none, none)
      | Except.ok (t, y) =>
        if sumSq (assimDiff rel_norm y) < tolerance * tolerance
        then (some (t.getLastD 0), some (y.getLastD []))
        else ssLoop sim tolerance rel_norm (rest ++ t_end :: ts2)) = (none, none)
    rw [hsa]
    simp only [hnca, if_false]
    exact ih t_end ts2 e (fun u hu => h u (List.mem_cons_of_mem a hu)) hsim

/-!
## Parameter fitting: fit.py

The Model class itself is not part of the sources (only its interface is
specified), so it is modelled from the spec below. Python dicts become
association lists with unique keys and dict.update merge semantics.
-/

/-- One dict-update step: replace the value at an existing key in place,
append a new key at the end (Python dict update semantics). -/
def setKey : List (String × ℚ) → String × ℚ → List (String × ℚ)
  | [], kv => [kv]
  | (k, v) :: rest, kv => if k = kv.1 then (k, kv.2) :: rest else (k, v) :: setKey rest kv

/-- Modelled from the spec: the Model collaborator (model.py is not in
the sources). It exposes a parameters map (name to value) and
update_parameters, which merges the given map into the parameters,
mutating the model and returning it. -/
structure Model where
  parameters : List (String × ℚ)

/-- Modelled from the spec: dict.update of the given entries into the
parameters map. -/
def Model.update_parameters (m : Model) (upd : List (String × ℚ)) : Model :=
  ⟨upd.foldl setKey m.parameters⟩

/-- Python zip(..., strict=True): raises (none) when lengths differ. -/
def zipStrict {α β : Type} : List α → List β → Option (List (α × β))
  | [], [] => some []
  | a :: l1, b :: l2 => (zipStrict l1 l2).map (fun l => (a, b) :: l)
  | _, _ => none

/-- Residual value: a float or the +infinity sentinel np.inf. -/
inductive Resid where
  | val (q : ℚ)
  | inf
deriving DecidableEq

/-- Fitted parameter value: a float or the np.nan sentinel. -/
inductive FitVal where
  | num (q : ℚ)
  | nan
deriving DecidableEq

/-- Result object of scipy.optimize.minimize: success flag and the
optimized vector x (scipy guarantees x has the length of x0). -/
structure OptResult where
  success : Bool
  x : List ℚ

/-- The function _default_minimize_fn: invokes scipy.optimize.minimize
(the oracle argument) with x0 = the values of p0 and the L-BFGS-B box
bounds (1e-12, 1e6) for every parameter; on success returns
dict(zip(p0, res.x, strict=True)), on failure dict(zip(p0, nan-vector,
strict=True)); the strict zips raise (none) on length mismatch. -/
def default_minimize_fn (minimize : List ℚ → List (ℚ × ℚ) → OptResult)
    (p0 : List (String × ℚ)) : Option (List (String × FitVal)) :=
  let res := minimize (p0.map Prod.snd) (List.replicate p0.length ((1e-12 : ℚ), (1e6 : ℚ)))
  if res.success then zipStrict (p0.map Prod.fst) (res.x.map FitVal.num)
  else zipStrict (p0.map Prod.fst) (List.replicate p0.length FitVal.nan)

/-- The function _steady_state_residual: overrides the model parameters
with dict(zip(par_names, par_values, strict=True)) (none embeds the
exception a length mismatch raises), runs the simulator chain
(Simulator(...).simulate_to_steady_state().get_full_concs_and_fluxes(),
the sim oracle, which also closes over y0 and the integrator type) and
returns np.inf when either extracted table is None, otherwise the
likelihood of data against the concatenated tables. The model mutated by
update_parameters is returned alongside. -/
def steady_state_residual {D C V : Type} (par_values : List ℚ) (par_names : List String)
    (data : D) (model : Model) (sim : Model → Option C × Option V)
    (likelihood : D → C → V → ℚ) : Option (Resid × Model) :=
  match zipStrict par_names par_values with
  | none => none
  | some upd =>
    let m1 := model.update_parameters upd
    match sim m1 with
    | (some c, some v) => some (Resid.val (likelihood data c v), m1)
    | _ => some (Resid.inf, m1)

/-- The function _time_course_residual: identical shape, with the
simulator oracle standing for simulate_time_course(data.index) followed
by get_full_concs_and_fluxes(). -/
def time_course_residual {D C V : Type} (par_values : List ℚ) (par_names : List String)
    (data : D) (model : Model) (sim : Model → Option C × Option V)
    (likelihood : D → C → V → ℚ) : Option (Resid × Model) :=
  match zipStrict par_names par_values with
  | none => none
  | some upd =>
    let m1 := model.update_parameters upd
    match sim m1 with
    | (some c, some v) => some (Resid.val (likelihood data c v), m1)
    | _ => some (Resid.inf, m1)

/-- Outcome of a minimize_fn call, with the model state threaded through
the residual evaluations the minimizer performed: a normal return with
the fitted map, or an exception escaping the call. -/
inductive MinOut where
  | ok (res : List (String × FitVal)) (m : Model)
  | exn (m : Model)

/-- Outcome of a fitting call: the fitted map on normal return, or the
exception propagating out of minimize_fn; both carry the model state at
exit. -/
inductive FitOut where
  | ok (res : List (String × FitVal)) (m : Model)
  | exn (m : Model)

/-- Model state at exit of a fitting call. -/
def FitOut.model : FitOut → Model
  | FitOut.ok _ m => m
  | FitOut.exn m => m

/-- Type of the pluggable minimize_fn: receives the partially applied
residual (candidate values and current model in, residual and mutated
model out) and the initial guess. -/
def MinimizeFn : Type :=
  (List ℚ → Model → Option (Resid × Model)) → List (String × ℚ) → Model → MinOut

/-- The function fit.steady_state: par_names = keys of p0, p_orig = the
model parameters (captured for restoration), the residual is partially
applied, minimize_fn runs the search mutating the model; on normal
return the original parameters are written back via update_parameters,
but an exception from minimize_fn propagates with no restoration (the
source has no try/finally). The fixed context (data, y0, integrator,
likelihood) is closed over by the residual_fn argument. -/
def fit_steady_state (minimize_fn : MinimizeFn)
    (residual_fn : List ℚ → List String → Model → Option (Resid × Model))
    (model : Model) (p0 : List (String × ℚ)) : FitOut :=
  let par_names := p0.map Prod.fst
  let p_orig := model.parameters
  let fn : List ℚ → Model → Option (Resid × Model) := fun v m => residual_fn v par_names m
  match minimize_fn fn p0 model with
  | MinOut.ok res m1 => FitOut.ok res (m1.update_parameters p_orig)
  | MinOut.exn m1 => FitOut.exn m1

/-- The function fit.time_course: structurally identical to
fit.steady_state, differing only in the plugged residual. -/
def fit_time_course (minimize_fn : MinimizeFn)
    (residual_fn : List ℚ → List String → Model → Option (Resid × Model))
    (model : Model) (p0 : List (String × ℚ)) : FitOut :=
  let par_names := p0.map Prod.fst
  let p_orig := model.parameters
  let fn : List ℚ → Model → Option (Resid × Model) := fun v m => residual_fn v par_names m
  match minimize_fn fn p0 model with
  | MinOut.ok res m1 => FitOut.ok res (m1.update_parameters p_orig)
  | MinOut.exn m1 => FitOut.exn m1

lemma setKey_cons_ne (k : String) (v : ℚ) (q : List (String × ℚ)) (kv : String × ℚ)
    (h : kv.1 ≠ k) : setKey ((k, v) :: q) kv = (k, v) :: setKey q kv := by
  have hne : ¬ (k = kv.1) := fun he => h he.symm
  simp only [setKey, if_neg hne]

lemma foldl_setKey_cons_notin :
    ∀ (tl qtl : List (String × ℚ)) (k : String) (v : ℚ),
      k ∉ tl.map Prod.fst →
      tl.foldl setKey ((k, v) :: qtl) = (k, v) :: tl.foldl setKey qtl := by
  intro tl
  induction tl with
  | nil => intro qtl k v _; rfl
  | cons kv rest ih =>
    intro qtl k v h
    rw [List.map_cons, List.mem_cons] at h
    push_neg at h
    obtain ⟨hk1, hk2⟩ := h
    show rest.foldl setKey (setKey ((k, v) :: qtl) kv) = (k, v) :: rest.foldl setKey (setKey qtl kv)
    rw [setKey_cons_ne k v qtl kv (fun he => hk1 he.symm)]
    exact ih (setKey qtl kv) k v hk2

/-- Restoring the full snapshot: updating any parameter map that has
exactly the snapshot's keys with the whole snapshot reproduces the
snapshot. -/
lemma foldl_setKey_restore :
    ∀ (ps q : List (String × ℚ)), (ps.map Prod.fst).Nodup →
      q.map Prod.fst = ps.map Prod.fst →
      ps.foldl setKey q = ps := by
  intro ps
  induction ps with
  | nil =>
    intro q _ hq
    have hqnil : q = [] := List.map_eq_nil_iff.mp hq
    rw [hqnil]
    rfl
  | cons p tl ih =>
    intro q hnd hq
    obtain ⟨k, v⟩ := p
    cases q with
    | nil => simp at hq
    | cons q0 qtl =>
      obtain ⟨k0, w⟩ := q0
      rw [List.map_cons, List.map_cons] at hq
      have hk0 : k0 = k := (List.cons.injEq _ _ _ _).mp hq |>.1
      have hqtl : qtl.map Prod.fst = tl.map Prod.fst := (List.cons.injEq _ _ _ _).mp hq |>.2
      rw [List.map_cons, List.nodup_cons] at hnd
      obtain ⟨hknotin, hndtl⟩ := hnd
      subst hk0
      show tl.foldl setKey (setKey ((k0, w) :: qtl) (k0, v)) = (k0, v) :: tl
      have hset : setKey ((k0, w) :: qtl) (k0, v) = (k0, v) :: qtl := by
        simp [setKey]
      rw [hset, foldl_setKey_cons_notin tl qtl k0 v hknotin,
        ih qtl hndtl hqtl]

lemma setKey_keys_of_mem :
    ∀ (ps : List (String × ℚ)) (kv : String × ℚ), kv.1 ∈ ps.map Prod.fst →
      (setKey ps kv).map Prod.fst = ps.map Prod.fst := by
  intro ps
  induction ps with
  | nil => intro kv h; simp at h
  | cons p rest ih =>
    intro kv h
    obtain ⟨k, v⟩ := p
    by_cases hk : k = kv.1
    · simp only [setKey, if_pos hk]
      rfl
    · simp only [setKey, if_neg hk, List.map_cons]
      rw [List.map_cons, List.mem_cons] at h
      rcases h with h1 | h2
      · exact absurd h1.symm hk
      · rw [ih kv h2]

/-- dict.update with keys that already exist leaves the key sequence of
the map unchanged (so search updates preserve the parameter names). -/
lemma foldl_setKey_keys :
    ∀ (upd ps : List (String × ℚ)), (∀ kv ∈ upd, kv.1 ∈ ps.map Prod.fst) →
      (upd.foldl setKey ps).map Prod.fst = ps.map Prod.fst := by
  intro upd
  induction upd with
  | nil => intro ps _; rfl
  | cons kv rest ih =>
    intro ps h
    show (rest.foldl setKey (setKey ps kv)).map Prod.fst = ps.map Prod.fst
    have hkeys := setKey_keys_of_mem ps kv (h kv (List.mem_cons_self kv rest))
    rw [ih (setKey ps kv) (fun u hu => by rw [hkeys]; exact h u (List.mem_cons_of_mem kv hu)),
      hkeys]

/-!
## Claim theorems
-/

lemma getLastD_of_ne_nil {α : Type} (l : List α) (d : α) (h : l ≠ []) :
    l.getLastD d = l.getLast h := by
  rw [List.getLastD_eq_getLast?, List.getLast?_eq_getLast l h]
  rfl

/-- A state-mutating call against the explicit backend. -/
inductive ScipyOp where
  | integrate (t_end : ℚ) (steps : Option ℕ)
  | integrateTimeCourse (time_points : List ℚ)

/-- Successor state of one backend call. -/
def applyScipyOp (odeint : Odeint) (s : Scipy) : ScipyOp → Scipy
  | ScipyOp.integrate t_end steps => (Scipy.integrate odeint s t_end steps).2
  | ScipyOp.integrateTimeCourse time_points =>
    (Scipy.integrate_time_course odeint s time_points).2

/-- State after a sequence of backend calls. -/
def applyScipyOps (odeint : Odeint) (ops : List ScipyOp) (s : Scipy) : Scipy :=
  ops.foldl (applyScipyOp odeint) s

lemma applyScipyOp_y0_orig (odeint : Odeint) (s : Scipy) (op : ScipyOp) :
    (applyScipyOp odeint s op).y0_orig = s.y0_orig := by
  cases op <;> rfl

lemma applyScipyOps_y0_orig (odeint : Odeint) :
    ∀ (ops : List ScipyOp) (s : Scipy), (applyScipyOps odeint ops s).y0_orig = s.y0_orig := by
  intro ops
  induction ops with
  | nil => intro s; rfl
  | cons op rest ih =>
    intro s
    show (applyScipyOps odeint rest (applyScipyOp odeint s op)).y0_orig = s.y0_orig
    rw [ih (applyScipyOp odeint s op), applyScipyOp_y0_orig]

/-- C8: reset puts t0 back to 0 and y0 back to the construction-time
initial condition; the stored original is a defensive copy, so no
sequence of integrate / integrate_time_course calls (which mutate the
live y0) changes the value reset restores. -/
theorem scipy_reset_restores_construction_state (odeint : Odeint)
    (rhs : ℚ → List ℚ → List ℚ) (y0 : List ℚ) (atol rtol : ℚ) (ops : List ScipyOp) :
    (Scipy.reset (applyScipyOps odeint ops (Scipy.init rhs y0 atol rtol))).t0 = 0
    ∧ (Scipy.reset (applyScipyOps odeint ops (Scipy.init rhs y0 atol rtol))).y0 = y0 := by
  constructor
  · rfl
  · show (applyScipyOps odeint ops (Scipy.init rhs y0 atol rtol)).y0_orig = y0
    rw [applyScipyOps_y0_orig]
    rfl

/-- C9: after a successful integrate_time_course the internal (t0, y0)
is the last time point and last state row of the trajectory just
returned, so the next call continues there; integrate without a steps
argument produces the default resolution of 100 output points by
delegating to integrate_time_course on linspace(t0, t_end, 100). -/
theorem scipy_integrate_continuation (odeint : Odeint) (s : Scipy)
    (time_points : List ℚ) (t_end : ℚ) (h : time_points ≠ [])
    (hy : odeint s.rhs s.y0 time_points s.atol s.rtol ≠ []) :
    (Scipy.integrate_time_course odeint s time_points).1
      = (time_points, odeint s.rhs s.y0 time_points s.atol s.rtol)
    ∧ (Scipy.integrate_time_course odeint s time_points).2.t0 = time_points.getLast h
    ∧ (Scipy.integrate_time_course odeint s time_points).2.y0
      = (odeint s.rhs s.y0 time_points s.atol s.rtol).getLast hy
    ∧ (Scipy.integrate odeint s t_end none).1.1.length = 100
    ∧ Scipy.integrate odeint s t_end none
      = Scipy.integrate_time_course odeint s (linspace s.t0 t_end 100)
    ∧ (∀ k : ℕ, Scipy.integrate odeint s t_end (some k)
      = Scipy.integrate_time_course odeint s (linspace s.t0 t_end (k + 1))) := by
  refine ⟨rfl, ?_, ?_, ?_, rfl, fun k => rfl⟩
  · show time_points.getLastD 0 = time_points.getLast h
    exact getLastD_of_ne_nil time_points 0 h
  · show (odeint s.rhs s.y0 time_points s.atol s.rtol).getLastD []
        = (odeint s.rhs s.y0 time_points s.atol s.rtol).getLast hy
    exact getLastD_of_ne_nil _ [] hy
  · show (linspace s.t0 t_end 100).length = 100
    unfold linspace
    rw [List.length_map, List.length_range]

/-- C10: integrate_to_steady_state resets at entry and never writes the
search's progress back into (t0, y0): afterwards t0 is 0 and y0 is the
construction-time initial condition, whatever the outcome and whatever
integrations preceded the call. -/
theorem scipy_steady_state_leaves_reset_state (solve : OdeSolve) (odeint : Odeint)
    (rhs : ℚ → List ℚ → List ℚ) (y0 : List ℚ) (atol rtol : ℚ) (ops : List ScipyOp)
    (tolerance : ℚ) (rel_norm : Bool) (step_size : ℚ) (max_steps : ℕ) :
    (Scipy.integrate_to_steady_state solve
        (applyScipyOps odeint ops (Scipy.init rhs y0 atol rtol))
        tolerance rel_norm step_size max_steps).2.t0 = 0
    ∧ (Scipy.integrate_to_steady_state solve
        (applyScipyOps odeint ops (Scipy.init rhs y0 atol rtol))
        tolerance rel_norm step_size max_steps).2.y0 = y0 := by
  constructor
  · rfl
  · show (applyScipyOps odeint ops (Scipy.init rhs y0 atol rtol)).y0_orig = y0
    rw [applyScipyOps_y0_orig]
    rfl

/-- C2: when no probe satisfies the convergence criterion the search
terminates with (none, none): the explicit backend exhausts its
max_steps probes at times t0 + k * step_size (t0 is 0 after the entry
reset, k = 1..max_steps), the implicit backend exhausts the 3 horizons
of geomspace(1000, t_max, 3); the loops are bounded by construction
(the third conjunct pins the schedule length to 3). -/
theorem steady_state_no_convergence_returns_none :
    (∀ (solve : OdeSolve) (s : Scipy) (tolerance : ℚ) (rel_norm : Bool)
        (step_size : ℚ) (max_steps : ℕ),
      (∀ k < max_steps,
        ¬ convAt (solve s.y0_orig) tolerance rel_norm step_size step_size s.y0_orig k) →
      (Scipy.integrate_to_steady_state solve s tolerance rel_norm step_size max_steps).1
        = (none, none))
    ∧ (∀ (sim : CVodeSim) (s : Assimulo) (tolerance : ℚ) (rel_norm : Bool) (t_max : ℝ),
      (∀ u ∈ geomspace3 1000 t_max,
        ¬ horizonConverged tolerance rel_norm (sim s.y0 u 0 none)) →
      Assimulo.integrate_to_steady_state sim s tolerance rel_norm t_max = (none, none))
    ∧ (∀ a b : ℝ, (geomspace3 a b).length = 3) := by
  refine ⟨?_, ?_, ?_⟩
  · intro solve s tolerance rel_norm step_size max_steps h
    show scipySSLoop (solve s.y0_orig) tolerance rel_norm step_size s.y0_orig
        (0 + step_size) max_steps = (none, none)
    rw [zero_add]
    exact scipySSLoop_none_of_never (solve s.y0_orig) tolerance rel_norm step_size
      max_steps s.y0_orig step_size h
  · intro sim s tolerance rel_norm t_max h
    exact ssLoop_none_of_never (fun t_end => sim s.y0 t_end 0 none) tolerance rel_norm
      (geomspace3 1000 t_max) h
  · intro a b
    rfl

/-- Witness for C2: a growing trajectory never converges on the explicit
backend within max_steps = 2, and a horizon whose last two rows differ
by 2 never converges for tolerance 1 on the implicit backend. -/
theorem steady_state_no_convergence_returns_none_witness :
    (Scipy.integrate_to_steady_state (fun _ t => [t]) (Scipy.init (fun _ y => y) [1] 1 1)
        (1/2) false 100 2).1 = (none, none)
    ∧ Assimulo.integrate_to_steady_state (fun _ _ _ _ => Except.ok ([5], [[1], [3]]))
        (Assimulo.init (fun _ y => y) [1] 1 1 4 1 50) 1 false ((10 : ℝ) ^ 9)
        = (none, none) := by
  constructor
  · apply steady_state_no_convergence_returns_none.1
    intro k hk
    interval_cases k <;>
      norm_num [convAt, prevAt, convDiff, sumSq, Scipy.init]
  · apply steady_state_no_convergence_returns_none.2.1
    intro u _
    rintro ⟨t, y, hok, hcv⟩
    rw [Except.ok.injEq] at hok
    obtain ⟨rfl, rfl⟩ : t = [5] ∧ y = [[1], [3]] := by
      exact ⟨(Prod.mk.injEq _ _ _ _ ▸ hok).1.symm, (Prod.mk.injEq _ _ _ _ ▸ hok).2.symm⟩
    norm_num [assimDiff, sumSq] at hcv

/-- Counterexample to C1: at a concrete input the Scipy steady-state
search disagrees with the claimed test diff = (y2 - y1) / y2: the source
divides by y1, so with start state [1], constant solver state [2],
rel_norm on and tolerance 3/4 the code needs two probes (relative diff 1
at the first) while the claimed formula stops at the first probe
(relative diff 1/2). -/
theorem steady_state_divides_by_old_cex :
    (Scipy.integrate_to_steady_state (fun _ _ => [2]) (Scipy.init (fun _ y => y) [1] 1 1)
        (3/4) true 100 5).1
      ≠ (Scipy.integrate_to_steady_state_byNew (fun _ _ => [2])
        (Scipy.init (fun _ y => y) [1] 1 1) (3/4) true 100 5).1 := by
  norm_num [Scipy.integrate_to_steady_state, Scipy.integrate_to_steady_state_byNew,
    Scipy.reset, Scipy.init, scipySSLoop, scipySSLoopByNew, convDiff, convDiffByNew, sumSq]

/-- C1 as amended: the Scipy backend compares each probe state y2
against the previous probe state y1 (initially the post-reset start
state) with diff = (y2 - y1) / y1 when rel_norm (dividing by the old
state) else y2 - y1, and returns (t, y2) at the first probe whose diff
has L2 norm below tolerance; the Assimulo backend compares the last two
output rows of the current horizon trajectory with
diff = (y[-1] - y[-2]) / y[-1] (dividing by the new row) and returns
(t[-1], y[-1]) at the first converging horizon. -/
theorem steady_state_convergence_test_characterisation :
    (∀ (solve : OdeSolve) (s : Scipy) (tolerance : ℚ) (rel_norm : Bool)
        (step_size : ℚ) (max_steps k : ℕ),
      k < max_steps →
      (∀ j < k,
        ¬ convAt (solve s.y0_orig) tolerance rel_norm step_size step_size s.y0_orig j) →
      convAt (solve s.y0_orig) tolerance rel_norm step_size step_size s.y0_orig k →
      (Scipy.integrate_to_steady_state solve s tolerance rel_norm step_size max_steps).1
        = (some (step_size + (k : ℚ) * step_size),
          some (solve s.y0_orig (step_size + (k : ℚ) * step_size))))
    ∧ (∀ (sim : CVodeSim) (s : Assimulo) (tolerance : ℚ) (rel_norm : Bool) (t_max : ℝ)
        (ts1 : List ℝ) (t_end : ℝ) (ts2 : List ℝ) (t : List ℝ) (y : List (List ℚ)),
      geomspace3 1000 t_max = ts1 ++ t_end :: ts2 →
      (∀ u ∈ ts1, horizonOkNoConv tolerance rel_norm (sim s.y0 u 0 none)) →
      sim s.y0 t_end 0 none = Except.ok (t, y) →
      sumSq (assimDiff rel_norm y) < tolerance * tolerance →
      Assimulo.integrate_to_steady_state sim s tolerance rel_norm t_max
        = (some (t.getLastD 0), some (y.getLastD []))) := by
  constructor
  · intro solve s tolerance rel_norm step_size max_steps k hk hprev hconv
    show scipySSLoop (solve s.y0_orig) tolerance rel_norm step_size s.y0_orig
        (0 + step_size) max_steps
      = (some (step_size + (k : ℚ) * step_size),
        some (solve s.y0_orig (step_size + (k : ℚ) * step_size)))
    rw [zero_add]
    exact scipySSLoop_eq_of_first (solve s.y0_orig) tolerance rel_norm step_size
      k max_steps s.y0_orig step_size hk hprev hconv
  · intro sim s tolerance rel_norm t_max ts1 t_end ts2 t y hgeo h hok hcv
    show ssLoop (fun u => sim s.y0 u 0 none) tolerance rel_norm (geomspace3 1000 t_max)
      = (some (t.getLastD 0), some (y.getLastD []))
    rw [hgeo]
    exact ssLoop_first_conv (fun u => sim s.y0 u 0 none) tolerance rel_norm
      ts1 t_end ts2 t y h hok hcv

/-- Witness for the amended C1: the explicit backend converges at the
second probe (k = 1) of the scenario of the counterexample, and the
implicit backend converges at the first horizon when the last two rows
coincide. -/
theorem steady_state_convergence_test_characterisation_witness :
    (Scipy.integrate_to_steady_state (fun _ _ => [2]) (Scipy.init (fun _ y => y) [1] 1 1)
        (3/4) true 100 5).1 = (some 200, some [2])
    ∧ Assimulo.integrate_to_steady_state (fun _ _ _ _ => Except.ok ([7], [[2], [2]]))
        (Assimulo.init (fun _ y => y) [2] 1 1 4 1 50) (1/2) true ((10 : ℝ) ^ 9)
        = (some 7, some [2]) := by
  constructor
  · have h := steady_state_convergence_test_characterisation.1
      (fun _ _ => [2]) (Scipy.init (fun _ y => y) [1] 1 1) (3/4) true 100 5 1
      (by norm_num)
      (by
        intro j hj
        interval_cases j
        norm_num [convAt, prevAt, convDiff, sumSq, Scipy.init])
      (by norm_num [convAt, prevAt, convDiff, sumSq, Scipy.init])
    rw [h]
    norm_num
  · have h := steady_state_convergence_test_characterisation.2
      (fun _ _ _ _ => Except.ok ([7], [[2], [2]]))
      (Assimulo.init (fun _ y => y) [2] 1 1 4 1 50) (1/2) true ((10 : ℝ) ^ 9)
      [] 1000 [Real.sqrt (1000 * (10 : ℝ) ^ 9), (10 : ℝ) ^ 9] [7] [[2], [2]]
      rfl (by intro u hu; simp at hu) rfl
      (by norm_num [assimDiff, sumSq])
    rw [h]
    norm_num

/-- Counterexample to C7: after a preceding integrate_time_course call
has moved the live state to t0 = 50, y0 = [5], the steady-state search
of the source (which resets first) disagrees with the variant that
starts from the current state: with a solver that holds the initial
value constant, the source converges to ([1], at t = 100) while the
from-current variant converges to ([5], at t = 150). -/
theorem steady_state_not_from_current_state_cex :
    (Scipy.integrate_to_steady_state (fun init _ => init)
        ((Scipy.integrate_time_course (fun _ _ _ _ _ => [[5]])
          (Scipy.init (fun _ y => y) [1] 1 1) [50]).2)
        (1/2) false 100 3).1
      ≠ (Scipy.integrate_to_steady_state_fromCurrent (fun init _ => init)
        ((Scipy.integrate_time_course (fun _ _ _ _ _ => [[5]])
          (Scipy.init (fun _ y => y) [1] 1 1) [50]).2)
        (1/2) false 100 3).1 := by
  norm_num [Scipy.integrate_to_steady_state, Scipy.integrate_to_steady_state_fromCurrent,
    Scipy.integrate_time_course, Scipy.reset, Scipy.init, scipySSLoop, convDiff, sumSq]

/-- C7 as amended: integrate_to_steady_state begins its search from the
state the entry reset establishes - the construction-time initial
condition - for both backends: the live current state (t0, y0 for the
explicit backend, the solver position for the implicit one) has no
effect on the result, and the search runs on the original initial
condition. -/
theorem steady_state_starts_from_reset_state :
    (∀ (solve : OdeSolve) (s : Scipy) (t0v : ℚ) (y0v : List ℚ) (tolerance : ℚ)
        (rel_norm : Bool) (step_size : ℚ) (max_steps : ℕ),
      (Scipy.integrate_to_steady_state solve
          ⟨s.rhs, y0v, s.atol, s.rtol, t0v, s.y0_orig⟩
          tolerance rel_norm step_size max_steps).1
        = (Scipy.integrate_to_steady_state solve s tolerance rel_norm step_size max_steps).1
      ∧ (Scipy.integrate_to_steady_state solve s tolerance rel_norm step_size max_steps).1
        = scipySSLoop (solve s.y0_orig) tolerance rel_norm step_size s.y0_orig
          (0 + step_size) max_steps)
    ∧ (∀ (sim : CVodeSim) (s : Assimulo) (curv : List ℚ) (tolerance : ℚ)
        (rel_norm : Bool) (t_max : ℝ),
      Assimulo.integrate_to_steady_state sim
          ⟨s.rhs, s.y0, s.atol, s.rtol, s.maxnef, s.maxncf, s.verbosity, curv⟩
          tolerance rel_norm t_max
        = Assimulo.integrate_to_steady_state sim s tolerance rel_norm t_max
      ∧ Assimulo.integrate_to_steady_state sim s tolerance rel_norm t_max
        = ssLoop (fun t_end => sim s.y0 t_end 0 none) tolerance rel_norm
          (geomspace3 1000 t_max)) := by
  constructor
  · intro solve s t0v y0v tolerance rel_norm step_size max_steps
    exact ⟨rfl, rfl⟩
  · intro sim s curv tolerance rel_norm t_max
    exact ⟨rfl, rfl⟩

lemma zipStrict_eq_of_length {α β : Type} :
    ∀ (l1 : List α) (l2 : List β), l1.length = l2.length →
      zipStrict l1 l2 = some (l1.zip l2) := by
  intro l1
  induction l1 with
  | nil =>
    intro l2 h
    cases l2 with
    | nil => rfl
    | cons b t => simp at h
  | cons a t1 ih =>
    intro l2 h
    cases l2 with
    | nil => simp at h
    | cons b t2 =>
      show (zipStrict t1 t2).map (fun l => (a, b) :: l) = some ((a, b) :: t1.zip t2)
      rw [ih t2 (by simpa using h)]
      rfl

/-- C4: the default minimizer never raises (given that the optimizer
returns a vector of the length of x0, which scipy guarantees): on
success it returns the keys of p0 zipped in order with the optimized
vector, on failure a map with exactly the keys of p0 and every value
NaN; and the optimizer is consulted only at x0 = the values of p0 with
the box bounds (1e-12, 1e6) on every coordinate, so the whole search is
constrained to that box. -/
theorem default_minimize_fn_spec (minimize : List ℚ → List (ℚ × ℚ) → OptResult)
    (p0 : List (String × ℚ))
    (hlen : (minimize (p0.map Prod.snd)
        (List.replicate p0.length ((1e-12 : ℚ), (1e6 : ℚ)))).x.length = p0.length) :
    ((minimize (p0.map Prod.snd)
        (List.replicate p0.length ((1e-12 : ℚ), (1e6 : ℚ)))).success = true →
      default_minimize_fn minimize p0
        = some ((p0.map Prod.fst).zip
          ((minimize (p0.map Prod.snd)
            (List.replicate p0.length ((1e-12 : ℚ), (1e6 : ℚ)))).x.map FitVal.num)))
    ∧ ((minimize (p0.map Prod.snd)
        (List.replicate p0.length ((1e-12 : ℚ), (1e6 : ℚ)))).success = false →
      ∃ out, default_minimize_fn minimize p0 = some out
        ∧ out.map Prod.fst = p0.map Prod.fst
        ∧ ∀ kv ∈ out, kv.2 = FitVal.nan)
    ∧ (∀ minimize2 : List ℚ → List (ℚ × ℚ) → OptResult,
      minimize2 (p0.map Prod.snd) (List.replicate p0.length ((1e-12 : ℚ), (1e6 : ℚ)))
          = minimize (p0.map Prod.snd) (List.replicate p0.length ((1e-12 : ℚ), (1e6 : ℚ))) →
      default_minimize_fn minimize2 p0 = default_minimize_fn minimize p0) := by
  refine ⟨?_, ?_, ?_⟩
  · intro hs
    unfold default_minimize_fn
    simp only [hs, if_true]
    apply zipStrict_eq_of_length
    rw [List.length_map, List.length_map, hlen]
  · intro hs
    unfold default_minimize_fn
    simp only [hs, Bool.false_eq_true, if_false]
    have hz : zipStrict (p0.map Prod.fst) (List.replicate p0.length FitVal.nan)
        = some ((p0.map Prod.fst).zip (List.replicate p0.length FitVal.nan)) := by
      apply zipStrict_eq_of_length
      rw [List.length_map, List.length_replicate]
    rw [hz]
    refine ⟨_, rfl, ?_, ?_⟩
    · apply List.map_fst_zip
      rw [List.length_map, List.length_replicate]
    · intro kv hkv
      have := (List.of_mem_zip hkv).2
      exact List.eq_of_mem_replicate this
  · intro minimize2 heq
    unfold default_minimize_fn
    simp only [heq]

/-- Witness for C4: a failing optimizer run on a single parameter yields
a NaN map with the key of p0. -/
theorem default_minimize_fn_spec_witness :
    ∃ out, default_minimize_fn (fun _ _ => OptResult.mk false [3]) [("k", 1)] = some out
      ∧ out.map Prod.fst = [("k", (1 : ℚ))].map Prod.fst
      ∧ ∀ kv ∈ out, kv.2 = FitVal.nan :=
  (default_minimize_fn_spec (fun _ _ => OptResult.mk false [3]) [("k", 1)] rfl).2.1 rfl

/-- C5: both residual functions return the +infinity sentinel, without
raising, whenever the simulation reports failure, i.e. whenever either
extracted table is None (the strict-zip hypothesis expresses that the
candidate vector matches the parameter names, so the only exit is the
regular return). -/
theorem residual_returns_inf_on_failed_simulation :
    (∀ (D C V : Type) (par_values : List ℚ) (par_names : List String) (data : D)
        (model : Model) (sim : Model → Option C × Option V)
        (likelihood : D → C → V → ℚ) (upd : List (String × ℚ)),
      zipStrict par_names par_values = some upd →
      ((sim (model.update_parameters upd)).1 = none
        ∨ (sim (model.update_parameters upd)).2 = none) →
      steady_state_residual par_values par_names data model sim likelihood
        = some (Resid.inf, model.update_parameters upd))
    ∧ (∀ (D C V : Type) (par_values : List ℚ) (par_names : List String) (data : D)
        (model : Model) (sim : Model → Option C × Option V)
        (likelihood : D → C → V → ℚ) (upd : List (String × ℚ)),
      zipStrict par_names par_values = some upd →
      ((sim (model.update_parameters upd)).1 = none
        ∨ (sim (model.update_parameters upd)).2 = none) →
      time_course_residual par_values par_names data model sim likelihood
        = some (Resid.inf, model.update_parameters upd)) := by
  constructor
  · intro D C V par_values par_names data model sim likelihood upd hzip hnone
    rcases hs : sim (model.update_parameters upd) with ⟨oc, ov⟩
    rw [hs] at hnone
    cases oc with
    | none => simp [steady_state_residual, hzip, hs]
    | some c =>
      cases ov with
      | none => simp [steady_state_residual, hzip, hs]
      | some v => simp at hnone
  · intro D C V par_values par_names data model sim likelihood upd hzip hnone
    rcases hs : sim (model.update_parameters upd) with ⟨oc, ov⟩
    rw [hs] at hnone
    cases oc with
    | none => simp [time_course_residual, hzip, hs]
    | some c =>
      cases ov with
      | none => simp [time_course_residual, hzip, hs]
      | some v => simp at hnone

/-- Witness for C5: a concrete candidate on a one-parameter model whose
simulation yields a None concentration table gives +inf from both
residuals. -/
theorem residual_returns_inf_on_failed_simulation_witness :
    steady_state_residual [2] ["k"] (0 : ℕ) ⟨[("k", 1)]⟩
        (fun _ => ((none : Option ℕ), some (5 : ℕ))) (fun _ _ _ => 0)
      = some (Resid.inf, Model.update_parameters ⟨[("k", 1)]⟩ [("k", 2)])
    ∧ time_course_residual [2] ["k"] (0 : ℕ) ⟨[("k", 1)]⟩
        (fun _ => ((none : Option ℕ), some (5 : ℕ))) (fun _ _ _ => 0)
      = some (Resid.inf, Model.update_parameters ⟨[("k", 1)]⟩ [("k", 2)]) := by
  constructor
  · exact residual_returns_inf_on_failed_simulation.1 ℕ ℕ ℕ [2] ["k"] 0 ⟨[("k", 1)]⟩
      (fun _ => (none, some 5)) (fun _ _ _ => 0) [("k", 2)] rfl (Or.inl rfl)
  · exact residual_returns_inf_on_failed_simulation.2 ℕ ℕ ℕ [2] ["k"] 0 ⟨[("k", 1)]⟩
      (fun _ => (none, some 5)) (fun _ _ _ => 0) [("k", 2)] rfl (Or.inl rfl)

/-- C6: a CVodeError raised by the CVode solver inside
Assimulo.integrate or Assimulo.integrate_to_steady_state is caught at
the backend boundary and converted into the (none, none) failure value
(for the steady-state search: an error at the first horizon that has not
already converged, each earlier one having succeeded without
converging). -/
theorem cvode_error_converted_to_none :
    (∀ (sim : CVodeSim) (s : Assimulo) (t_end : ℝ) (steps : Option ℕ)
        (time_points : Option (List ℝ)) (e : CVodeError),
      sim s.cur t_end (steps.getD 0) time_points = Except.error e →
      (Assimulo.integrate sim s t_end steps time_points).1 = (none, none))
    ∧ (∀ (sim : CVodeSim) (s : Assimulo) (tolerance : ℚ) (rel_norm : Bool) (t_max : ℝ)
        (ts1 : List ℝ) (t_end : ℝ) (ts2 : List ℝ) (e : CVodeError),
      geomspace3 1000 t_max = ts1 ++ t_end :: ts2 →
      (∀ u ∈ ts1, horizonOkNoConv tolerance rel_norm (sim s.y0 u 0 none)) →
      sim s.y0 t_end 0 none = Except.error e →
      Assimulo.integrate_to_steady_state sim s tolerance rel_norm t_max = (none, none)) := by
  constructor
  · intro sim s t_end steps time_points e herr
    unfold Assimulo.integrate
    rw [herr]
  · intro sim s tolerance rel_norm t_max ts1 t_end ts2 e hgeo h herr
    show ssLoop (fun u => sim s.y0 u 0 none) tolerance rel_norm (geomspace3 1000 t_max)
      = (none, none)
    rw [hgeo]
    exact ssLoop_error_aborts (fun u => sim s.y0 u 0 none) tolerance rel_norm
      ts1 t_end ts2 e h herr

/-- Witness for C6: a solver that always raises gives (none, none) from
integrate and from the steady-state search. -/
theorem cvode_error_converted_to_none_witness :
    (Assimulo.integrate (fun _ _ _ _ => Except.error ⟨1⟩)
        (Assimulo.init (fun _ y => y) [1] 1 1 4 1 50) 10 none none).1 = (none, none)
    ∧ Assimulo.integrate_to_steady_state (fun _ _ _ _ => Except.error ⟨1⟩)
        (Assimulo.init (fun _ y => y) [1] 1 1 4 1 50) 1 false ((10 : ℝ) ^ 9)
        = (none, none) := by
  constructor
  · exact cvode_error_converted_to_none.1 (fun _ _ _ _ => Except.error ⟨1⟩)
      (Assimulo.init (fun _ y => y) [1] 1 1 4 1 50) 10 none none ⟨1⟩ rfl
  · exact cvode_error_converted_to_none.2 (fun _ _ _ _ => Except.error ⟨1⟩)
      (Assimulo.init (fun _ y => y) [1] 1 1 4 1 50) 1 false ((10 : ℝ) ^ 9)
      [] 1000 [Real.sqrt (1000 * (10 : ℝ) ^ 9), (10 : ℝ) ^ 9] ⟨1⟩
      rfl (by intro u hu; simp at hu) rfl

/-- C3 as amended: when minimize_fn returns normally (optimizer success
or failure alike) and the search has not changed the set of parameter
names (as holds for the residual updates, which only write existing
keys), both fitting functions restore the model parameters to their
before-call value; but when minimize_fn raises, the exception propagates
with no restoration, because the source restores after the call instead
of in a finally block. -/
theorem fit_restores_parameters_on_normal_return
    (minimize_fn : MinimizeFn)
    (residual_fn : List ℚ → List String → Model → Option (Resid × Model))
    (model : Model) (p0 : List (String × ℚ)) (res : List (String × FitVal)) (m1 : Model)
    (hnd : (model.parameters.map Prod.fst).Nodup)
    (hmin : minimize_fn (fun v m => residual_fn v (p0.map Prod.fst) m) p0 model
      = MinOut.ok res m1)
    (hkeys : m1.parameters.map Prod.fst = model.parameters.map Prod.fst) :
    (fit_steady_state minimize_fn residual_fn model p0).model.parameters = model.parameters
    ∧ (fit_time_course minimize_fn residual_fn model p0).model.parameters
      = model.parameters := by
  constructor
  · unfold fit_steady_state
    simp only [hmin]
    show (model.parameters.foldl setKey m1.parameters) = model.parameters
    exact foldl_setKey_restore model.parameters m1.parameters hnd hkeys
  · unfold fit_time_course
    simp only [hmin]
    show (model.parameters.foldl setKey m1.parameters) = model.parameters
    exact foldl_setKey_restore model.parameters m1.parameters hnd hkeys

/-- Witness for the amended C3: a minimizer that evaluates the residual
once at candidate [2] (moving parameter k from 1 to 2) and then returns
normally leaves the model restored to k = 1 for both fitting
functions. -/
theorem fit_restores_parameters_on_normal_return_witness :
    (fit_steady_state
        (fun fn _ m => MinOut.ok [] (match fn [2] m with
          | some (_, m2) => m2
          | none => m))
        (fun v names m => steady_state_residual v names (0 : ℕ) m
          (fun _ => ((none : Option ℕ), (none : Option ℕ))) (fun _ _ _ => 0))
        ⟨[("k", 1)]⟩ [("k", 5)]).model.parameters = [("k", (1 : ℚ))]
    ∧ (fit_time_course
        (fun fn _ m => MinOut.ok [] (match fn [2] m with
          | some (_, m2) => m2
          | none => m))
        (fun v names m => steady_state_residual v names (0 : ℕ) m
          (fun _ => ((none : Option ℕ), (none : Option ℕ))) (fun _ _ _ => 0))
        ⟨[("k", 1)]⟩ [("k", 5)]).model.parameters = [("k", (1 : ℚ))] :=
  fit_restores_parameters_on_normal_return
    (fun fn _ m => MinOut.ok [] (match fn [2] m with
      | some (_, m2) => m2
      | none => m))
    (fun v names m => steady_state_residual v names (0 : ℕ) m
      (fun _ => ((none : Option ℕ), (none : Option ℕ))) (fun _ _ _ => 0))
    ⟨[("k", 1)]⟩ [("k", 5)] [] ⟨[("k", 2)]⟩
    (by simp) rfl rfl

/-- Counterexample to C3: the same search, but the minimizer raises
after its single residual evaluation; the exception propagates out of
fit_steady_state and the model is left with the candidate value k = 2,
not the original k = 1, because the source has no try/finally around the
minimize_fn call. -/
theorem fit_no_restore_on_exception_cex :
    (fit_steady_state
        (fun fn _ m => MinOut.exn (match fn [2] m with
          | some (_, m2) => m2
          | none => m))
        (fun v names m => steady_state_residual v names (0 : ℕ) m
          (fun _ => ((none : Option ℕ), (none : Option ℕ))) (fun _ _ _ => 0))
        ⟨[("k", 1)]⟩ [("k", 5)]).model.parameters ≠ [("k", (1 : ℚ))] := by
  intro h
  have hval : (fit_steady_state
      (fun fn _ m => MinOut.exn (match fn [2] m with
        | some (_, m2) => m2
        | none => m))
      (fun v names m => steady_state_residual v names (0 : ℕ) m
        (fun _ => ((none : Option ℕ), (none : Option ℕ))) (fun _ _ _ => 0))
      ⟨[("k", 1)]⟩ [("k", 5)]).model.parameters = [("k", (2 : ℚ))] := rfl
  rw [hval] at h
  simp at h

/-- Witness for C9: a one-point time course leaves (t0, y0) at the last
returned time point and state row. -/
theorem scipy_integrate_continuation_witness :
    (Scipy.integrate_time_course (fun _ _ _ _ _ => [[7]])
        (Scipy.init (fun _ y => y) [1] 1 1) [3]).1 = ([3], [[7]])
    ∧ (Scipy.integrate_time_course (fun _ _ _ _ _ => [[7]])
        (Scipy.init (fun _ y => y) [1] 1 1) [3]).2.t0
      = ([(3 : ℚ)].getLast (by simp))
    ∧ (Scipy.integrate_time_course (fun _ _ _ _ _ => [[7]])
        (Scipy.init (fun _ y => y) [1] 1 1) [3]).2.y0
      = ([[(7 : ℚ)]].getLast (by simp))
    ∧ (Scipy.integrate (fun _ _ _ _ _ => [[7]])
        (Scipy.init (fun _ y => y) [1] 1 1) 10 none).1.1.length = 100 := by
  have h := scipy_integrate_continuation (fun _ _ _ _ _ => [[7]])
    (Scipy.init (fun _ y => y) [1] 1 1) [3] 10 (by simp) (by simp)
  exact ⟨h.1, h.2.1, h.2.2.1, h.2.2.2.1⟩
